import Mathlib

/-!
Shallow embedding of the pikmin-aggregator pipeline (src/lib.rs).

Tables are modeled as Lean lists kept in primary-key order: MySQL InnoDB
scans rows in primary-key order, so statements carrying a LIMIT and no
ORDER BY (the GROUP BY ... LIMIT insert and the DELETE ... LIMIT of
move_aggregated_data) are modeled as operating on the first LIMIT rows in
ascending traded_at order. Timestamps with millisecond precision are
modeled as milliseconds since the Unix epoch (a Nat); numeric column
values are modeled as rationals.
-/

namespace PikminAggregator

/-- One row of the source table trades_<exchange>:
(traded_at TIMESTAMP(3), amount, price). Append-only, no uniqueness on
traded_at. -/
structure SourceRow where
  traded_at : Nat
  amount : ℚ
  price : ℚ
  deriving DecidableEq, Repr

/-- One row of the aggregation result table step2__trades_<exchange>
(and, after the final RENAME, of the target ref_trades_<exchange>). -/
structure AggRow where
  traded_at : Nat
  amount : ℚ
  price : ℚ
  deriving DecidableEq, Repr

/-- Database-level failures surfaced by the mysql driver as Err values. -/
inductive DbError where
  | connectionFailure
  | statementError (code : Nat)
  deriving DecidableEq, Repr

/-- The tables owned by one worker for one exchange. A table that does not
exist is None; an existing (possibly empty) table is Some of its rows.
step1 is the timestamp index, tmp1 its transient working copy, step2 the
result staging table, target the published ref_trades table. -/
structure DbState where
  source : List SourceRow
  step1 : Option (List Nat)
  tmp1 : Option (List Nat)
  step2 : Option (List AggRow)
  target : Option (List AggRow)
  deriving DecidableEq, Repr

/-- Batch size used by both insert_all_traded_at and move_aggregated_data
(const LIMIT: u32 = 100000). -/
def LIMIT : Nat := 100000

/-- The sentinel watermark of insert_all_traded_at, the TIMESTAMP(3) value
2000-01-01 00:00:00.000 UTC, in milliseconds since the epoch. -/
def sentinel : Nat := 946684800000

/-- check_existence: runs SHOW TABLES LIKE and counts the rows; an Err from
the driver is turned into false by unwrap_or(false). -/
def check_existence (queryResult : Except DbError Nat) : Bool :=
  match queryResult.map (fun e => e != 0) with
  | Except.ok b => b
  | Except.error _ => false

/-- Number of rows returned by SHOW TABLES LIKE for a table: 1 when the
table exists, 0 otherwise. -/
def tableCount {α : Type} (t : Option α) : Nat :=
  if t.isSome then 1 else 0

/-- Insert a timestamp into a strictly sorted list, keeping it sorted and
duplicate free. -/
def insertTs (t : Nat) : List Nat → List Nat
  | [] => [t]
  | u :: rest =>
    if t < u then t :: u :: rest
    else if t = u then u :: rest
    else u :: insertTs t rest

/-- SELECT DISTINCT traded_at FROM source ORDER BY traded_at: the distinct
timestamps of the source, ascending. -/
def distinctTradedAt (source : List SourceRow) : List Nat :=
  source.foldr (fun r acc => insertTs r.traded_at acc) []

/-- SELECT traded_at FROM index ORDER BY traded_at DESC LIMIT 1: the
maximum timestamp of the index table, when it has one. -/
def maxTraded : List Nat → Option Nat
  | [] => none
  | t :: rest => some (max t ((maxTraded rest).getD t))

/-- COALESCE(max of the index, sentinel): the watermark a bulk-extract
batch starts strictly after. -/
def watermark (index : List Nat) : Nat :=
  (maxTraded index).getD sentinel

/-- insert_all_traded_at: one OUTFILE/LOAD round trip. Selects up to LIMIT
distinct source timestamps strictly above the current watermark of the
index being built, in ascending order; the caller appends them to the
index. Returns the batch (whose length is the affected row count). -/
def insert_all_traded_at (source : List SourceRow) (index : List Nat) :
    List Nat :=
  ((distinctTradedAt source).filter (fun t => watermark index < t)).take LIMIT

/-- The loop of step1: repeatedly bulk-load a batch, stopping when a batch
inserts zero rows. Fuel-indexed; None means the fuel ran out before the
loop reached exhaustion. -/
def step1Loop (source : List SourceRow) : List Nat → Nat →
    Option (List Nat)
  | _, 0 => none
  | index, fuel + 1 =>
    let batch := insert_all_traded_at source index
    if batch.length = 0 then some index
    else step1Loop source (index ++ batch) fuel

/-- step1: drop the tmp table, create it empty, run the bulk-load loop to
exhaustion, rename tmp into the step1 name. Yields the content of the
completed timestamp index. -/
def step1 (source : List SourceRow) : List Nat :=
  (step1Loop source [] ((distinctTradedAt source).length + 1)).getD []

/-- The source rows sharing one timestamp (the LEFT JOIN group for one
index entry). -/
def rowsAt (source : List SourceRow) (t : Nat) : List SourceRow :=
  source.filter (fun r => r.traded_at = t)

/-- The aggregate row SELECT s1.traded_at, Sum(orig.amount),
Avg(orig.price) computes for one timestamp group, taken in ideal
(infinite-precision) rational arithmetic: sum of the amounts, unweighted
arithmetic mean of the prices. The program stores these values into
DOUBLE respectively FLOAT columns (see step2Schema), so the stored values
are floating-point roundings of these ideal aggregates; that rounding is
not modeled here. Claims about which keys appear and how runs compose do
not depend on it; claims about stored-value exactness must not rely on
this idealization. -/
def aggRowFor (source : List SourceRow) (t : Nat) : AggRow :=
  { traded_at := t
    amount := ((rowsAt source t).map SourceRow.amount).sum
    price := ((rowsAt source t).map SourceRow.price).sum /
      ((rowsAt source t).length : ℚ) }

/-- move_aggregated_data: one transaction. Inserts into step2 the
aggregates of the first LIMIT index entries (GROUP BY traded_at LIMIT ?),
deletes the first LIMIT rows from the index (DELETE ... LIMIT ?), commits,
and returns (new index, new step2, affected rows of the INSERT). -/
def move_aggregated_data (source : List SourceRow) (s1 : List Nat)
    (s2 : List AggRow) : List Nat × List AggRow × Nat :=
  let batch := s1.take LIMIT
  let inserted := batch.map (aggRowFor source)
  (s1.drop LIMIT, s2 ++ inserted, inserted.length)

/-- The state transformation of one committed batch of
move_aggregated_data (index, step2 staged rows). -/
def batchStep (source : List SourceRow) (p : List Nat × List AggRow) :
    List Nat × List AggRow :=
  ((move_aggregated_data source p.1 p.2).1, (move_aggregated_data source p.1 p.2).2.1)

/-- The joint (index, step2) state after n committed batches. -/
def iterBatch (source : List SourceRow) : Nat →
    (List Nat × List AggRow) → List Nat × List AggRow
  | 0, p => p
  | n + 1, p => iterBatch source n (batchStep source p)

/-- The loop of step2: run move_aggregated_data until a batch reports zero
affected rows. Fuel-indexed; None means the fuel ran out first. -/
def step2Loop (source : List SourceRow) : List Nat → List AggRow →
    Nat → Option (List Nat × List AggRow)
  | _, _, 0 => none
  | s1, s2, fuel + 1 =>
    let r := move_aggregated_data source s1 s2
    if r.2.2 = 0 then some (r.1, r.2.1)
    else step2Loop source r.1 r.2.1 fuel

/-- step2: the aggregation loop run to exhaustion, producing the final
(index, step2) pair. -/
def step2 (source : List SourceRow) (s1 : List Nat)
    (s2 : List AggRow) : List Nat × List AggRow :=
  (step2Loop source s1 s2 (s1.length + 1)).getD (s1, s2)

/-- clear_step2_table: DROP TABLE IF EXISTS step2 then CREATE TABLE step2,
leaving an existing empty table. -/
def clear_step2_table : List AggRow := []

/-- The body of aggregate once the target has been found absent: build the
timestamp index unless it already exists, create the step2 table empty
unless it already exists, run step2 to exhaustion, rename step2 to the
target, drop step1. The tmp table is only touched (and renamed away) when
step1 is rebuilt. -/
def aggregateBody (s : DbState) : DbState :=
  let step1Exists := check_existence (Except.ok (tableCount s.step1))
  let s1 := if step1Exists then s.step1.getD [] else step1 s.source
  let tmp1After := if step1Exists then s.tmp1 else none
  let s2 := if check_existence (Except.ok (tableCount s.step2)) then
    s.step2.getD [] else clear_step2_table
  let fin := step2 s.source s1 s2
  { s with
    step1 := none
    tmp1 := tmp1After
    step2 := none
    target := some fin.2 }

/-- aggregate, parameterized by the raw result of the SHOW TABLES query on
the target: if check_existence holds the run is a no-op, else the body
runs. -/
def aggregateWithTargetCheck (q : Except DbError Nat) (s : DbState) : DbState :=
  if check_existence q then s else aggregateBody s

/-- aggregate: the orchestrator, with the target existence query
answering truthfully. -/
def aggregate (s : DbState) : DbState :=
  aggregateWithTargetCheck (Except.ok (tableCount s.target)) s

/-- The database state a worker sees on a first run: only the source
table exists. -/
def freshState (source : List SourceRow) : DbState :=
  { source := source, step1 := none, tmp1 := none, step2 := none,
    target := none }

/-- The published target rows of a complete run from a fresh state. -/
def runTarget (source : List SourceRow) : List AggRow :=
  ((aggregate (freshState source)).target).getD []

/-- The database state left behind when the aggregation loop is
interrupted after n committed batches of a run that had completed step1:
the index has lost its first n * LIMIT entries, the staging table holds
their aggregates, no target exists. -/
def interruptedState (source : List SourceRow) (n : Nat) : DbState :=
  { source := source
    step1 := some (iterBatch source n (step1 source, [])).1
    tmp1 := none
    step2 := some (iterBatch source n (step1 source, [])).2
    target := none }

/-- Column types occurring in the DDL of this pipeline, plus the exact
NUMERIC (DECIMAL) type for comparison. -/
inductive ColType where
  | timestamp3
  | double
  | float
  | numeric
  deriving DecidableEq, Repr

/-- One column of a CREATE TABLE statement. -/
structure Column where
  name : String
  ty : ColType
  notNull : Bool
  primaryKey : Bool
  deriving DecidableEq, Repr

/-- The schema created by clear_step2_table (and carried unchanged to the
target by RENAME TABLE): traded_at TIMESTAMP(3) NOT NULL PRIMARY KEY,
amount DOUBLE NOT NULL, price FLOAT NOT NULL. -/
def step2Schema : List Column :=
  [ { name := "traded_at", ty := ColType.timestamp3, notNull := true,
      primaryKey := true },
    { name := "amount", ty := ColType.double, notNull := true,
      primaryKey := false },
    { name := "price", ty := ColType.float, notNull := true,
      primaryKey := false } ]

/-- Modelled from the spec: the shape the specification claims for the
published table, (traded_at TIMESTAMP(ms) PRIMARY KEY, amount NUMERIC NOT
NULL, price NUMERIC NOT NULL), for refinement comparison with
step2Schema. -/
def specClaimedSchema : List Column :=
  [ { name := "traded_at", ty := ColType.timestamp3, notNull := true,
      primaryKey := true },
    { name := "amount", ty := ColType.numeric, notNull := true,
      primaryKey := false },
    { name := "price", ty := ColType.numeric, notNull := true,
      primaryKey := false } ]

/-! ### Basic facts about the distinct-timestamp extraction -/

theorem mem_insertTs {x t : Nat} {l : List Nat} :
    x ∈ insertTs t l ↔ x = t ∨ x ∈ l := by
  induction l with
  | nil => simp [insertTs]
  | cons u rest ih =>
    by_cases h1 : t < u
    · simp [insertTs, h1]
    · by_cases h2 : t = u
      · subst h2
        have he : insertTs t (t :: rest) = t :: rest := by simp [insertTs]
        rw [he]
        simp only [List.mem_cons]
        tauto
      · simp only [insertTs, if_neg h1, if_neg h2, List.mem_cons, ih]
        tauto

theorem sorted_insertTs {t : Nat} {l : List Nat}
    (h : List.Sorted (· < ·) l) : List.Sorted (· < ·) (insertTs t l) := by
  induction l with
  | nil => simp [insertTs]
  | cons u rest ih =>
    rw [List.sorted_cons] at h
    obtain ⟨hu, hrest⟩ := h
    by_cases h1 : t < u
    · rw [insertTs, if_pos h1, List.sorted_cons]
      refine ⟨?_, List.sorted_cons.mpr ⟨hu, hrest⟩⟩
      intro b hb
      rcases List.mem_cons.mp hb with hb | hb
      · exact hb ▸ h1
      · exact h1.trans (hu b hb)
    · by_cases h2 : t = u
      · rw [insertTs, if_neg h1, if_pos h2]
        exact List.sorted_cons.mpr ⟨hu, hrest⟩
      · rw [insertTs, if_neg h1, if_neg h2, List.sorted_cons]
        refine ⟨?_, ih hrest⟩
        intro b hb
        rcases mem_insertTs.mp hb with hb | hb
        · show u < b
          omega
        · exact hu b hb

theorem sorted_distinctTradedAt (source : List SourceRow) :
    List.Sorted (· < ·) (distinctTradedAt source) := by
  induction source with
  | nil => simp [distinctTradedAt]
  | cons r rest ih => exact sorted_insertTs ih

theorem mem_distinctTradedAt {t : Nat} {source : List SourceRow} :
    t ∈ distinctTradedAt source ↔ ∃ r ∈ source, r.traded_at = t := by
  induction source with
  | nil => simp [distinctTradedAt]
  | cons r rest ih =>
    simp only [distinctTradedAt, List.foldr_cons] at ih ⊢
    rw [mem_insertTs, ih]
    constructor
    · rintro (h | ⟨r', hr', ht⟩)
      · exact ⟨r, List.mem_cons_self r rest, h.symm⟩
      · exact ⟨r', List.mem_cons_of_mem r hr', ht⟩
    · rintro ⟨r', hr', ht⟩
      rcases List.mem_cons.mp hr' with hr' | hr'
      · exact Or.inl (hr' ▸ ht.symm)
      · exact Or.inr ⟨r', hr', ht⟩

theorem nodup_distinctTradedAt (source : List SourceRow) :
    (distinctTradedAt source).Nodup :=
  (sorted_distinctTradedAt source).imp (fun h => Nat.ne_of_lt h)

/-! ### Facts about the watermark -/

theorem maxTraded_eq_none {l : List Nat} :
    maxTraded l = none ↔ l = [] := by
  cases l with
  | nil => simp [maxTraded]
  | cons t rest => simp [maxTraded]

theorem le_maxTraded_of_mem {l : List Nat} {m x : Nat}
    (hm : maxTraded l = some m) (hx : x ∈ l) : x ≤ m := by
  induction l generalizing m with
  | nil => cases hx
  | cons t rest ih =>
    simp only [maxTraded, Option.some.injEq] at hm
    rcases List.mem_cons.mp hx with hx | hx
    · subst hx
      exact hm ▸ le_max_left _ _
    · cases h : maxTraded rest with
      | none =>
        rw [maxTraded_eq_none] at h
        subst h; cases hx
      | some m' =>
        rw [h] at hm
        simp only [Option.getD_some] at hm
        exact le_trans (ih h hx) (hm ▸ le_max_right t m')

theorem maxTraded_mem {l : List Nat} {m : Nat}
    (hm : maxTraded l = some m) : m ∈ l := by
  induction l generalizing m with
  | nil => cases hm
  | cons t rest ih =>
    simp only [maxTraded, Option.some.injEq] at hm
    cases h : maxTraded rest with
    | none =>
      rw [h] at hm
      simp only [Option.getD_none, max_self] at hm
      exact List.mem_cons.mpr (Or.inl hm.symm)
    | some m' =>
      rw [h] at hm
      simp only [Option.getD_some] at hm
      rcases Nat.le_total t m' with hle | hle
      · rw [max_eq_right hle] at hm
        exact List.mem_cons.mpr (Or.inr (hm ▸ ih h))
      · rw [max_eq_left hle] at hm
        exact List.mem_cons.mpr (Or.inl hm.symm)

theorem maxTraded_append_of_le {p q : List Nat} {b : Nat}
    (hq : maxTraded q = some b) (hp : ∀ x ∈ p, x ≤ b) :
    maxTraded (p ++ q) = some b := by
  induction p with
  | nil => simpa using hq
  | cons a p' ih =>
    have ha : a ≤ b := hp a (List.mem_cons_self a p')
    have h' : maxTraded (p' ++ q) = some b :=
      ih (fun x hx => hp x (List.mem_cons_of_mem a hx))
    rw [List.cons_append]
    simp only [maxTraded, h', Option.getD_some, max_eq_right ha]

/-! ### Characterization of the step1 bulk-load loop -/

theorem sorted_filter_drop {R : List Nat} (hs : List.Sorted (· < ·) R) :
    ∀ {n b : Nat}, maxTraded (R.take n) = some b →
    R.filter (fun t => b < t) = R.drop n := by
  induction R with
  | nil =>
    intro n b h
    rw [List.take_nil] at h
    cases h
  | cons a R' ih =>
    intro n b h
    rw [List.sorted_cons] at hs
    obtain ⟨ha, hs'⟩ := hs
    match n with
    | 0 => cases h
    | Nat.succ m =>
      rw [List.take_succ_cons] at h
      simp only [maxTraded, Option.some.injEq] at h
      cases hmt : maxTraded (R'.take m) with
      | none =>
        rw [hmt] at h
        simp only [Option.getD_none, max_self] at h
        subst h
        have hR' : R'.drop m = R' := by
          rw [maxTraded_eq_none, List.take_eq_nil_iff] at hmt
          rcases hmt with hmt | hmt
          · subst hmt; rfl
          · subst hmt; simp
        rw [List.drop_succ_cons, hR']
        have hstep : (a :: R').filter (fun t => a < t) =
            R'.filter (fun t => a < t) := by
          simp [List.filter_cons]
        rw [hstep, List.filter_eq_self.mpr]
        intro x hx
        simpa using ha x hx
      | some b' =>
        rw [hmt] at h
        simp only [Option.getD_some] at h
        have hb'R : b' ∈ R' := List.take_subset m R' (maxTraded_mem hmt)
        have hab' : a < b' := ha b' hb'R
        rw [max_eq_right (le_of_lt hab')] at h
        subst h
        have hstep : (a :: R').filter (fun t => b' < t) =
            R'.filter (fun t => b' < t) := by
          have : ¬ b' < a := by omega
          simp [List.filter_cons, this]
        rw [List.drop_succ_cons, hstep]
        exact ih hs' hmt

theorem filter_gt_filter {l : List Nat} {a b : Nat} (hab : a ≤ b) :
    (l.filter (fun t => a < t)).filter (fun t => b < t) =
      l.filter (fun t => b < t) := by
  induction l with
  | nil => rfl
  | cons x xs ih =>
    by_cases hax : a < x
    · by_cases hbx : b < x
      · simp [List.filter_cons, hax, hbx, ih]
      · simp [List.filter_cons, hax, hbx, ih]
    · have hbx : ¬ b < x := by omega
      simp [List.filter_cons, hax, hbx, ih]

theorem step1Loop_complete :
    ∀ (fuel : Nat) (source : List SourceRow) (P R : List Nat),
    (distinctTradedAt source).filter (fun t => watermark P < t) = R →
    R.length < fuel →
    step1Loop source P fuel = some (P ++ R) := by
  intro fuel
  induction fuel with
  | zero =>
    intro source P R _ h
    omega
  | succ f ih =>
    intro source P R hR hlen
    simp only [step1Loop]
    have hbatch : insert_all_traded_at source P = R.take LIMIT := by
      rw [insert_all_traded_at, hR]
    cases R with
    | nil => simp [hbatch]
    | cons r R0 =>
      have hL : LIMIT = 100000 := rfl
      have hlb : (insert_all_traded_at source P).length ≠ 0 := by
        rw [hbatch, List.length_take, List.length_cons]
        omega
      rw [if_neg hlb, hbatch]
      have hbne : (r :: R0).take LIMIT ≠ [] := by
        intro hEq
        rw [hbatch, hEq] at hlb
        exact hlb rfl
      obtain ⟨b, hb⟩ : ∃ b, maxTraded ((r :: R0).take LIMIT) = some b := by
        cases hmb : maxTraded ((r :: R0).take LIMIT) with
        | none => rw [maxTraded_eq_none] at hmb; exact absurd hmb hbne
        | some b => exact ⟨b, rfl⟩
      have hRfilt : ∀ x ∈ (r :: R0), watermark P < x := by
        intro x hx
        have hx' : x ∈ (distinctTradedAt source).filter
            (fun t => watermark P < t) := hR ▸ hx
        simpa using List.of_mem_filter hx'
      have hwb : watermark P < b :=
        hRfilt b (List.take_subset LIMIT (r :: R0) (maxTraded_mem hb))
      have hPle : ∀ x ∈ P, x ≤ b := by
        intro x hx
        cases hmp : maxTraded P with
        | none =>
          rw [maxTraded_eq_none] at hmp
          subst hmp
          cases hx
        | some mp =>
          have hxmp : x ≤ mp := le_maxTraded_of_mem hmp hx
          have hwmp : watermark P = mp := by rw [watermark, hmp]; rfl
          omega
      have hwP' : watermark (P ++ (r :: R0).take LIMIT) = b := by
        rw [watermark, maxTraded_append_of_le hb hPle]
        rfl
      have hRsorted : List.Sorted (· < ·) (r :: R0) := by
        rw [← hR]
        exact (sorted_distinctTradedAt source).filter _
      have hfilt' : (distinctTradedAt source).filter
          (fun t => watermark (P ++ (r :: R0).take LIMIT) < t) =
          (r :: R0).drop LIMIT := by
        rw [hwP', ← filter_gt_filter (le_of_lt hwb), hR]
        exact sorted_filter_drop hRsorted hb
      have hlen' : ((r :: R0).drop LIMIT).length < f := by
        rw [List.length_drop, List.length_cons]
        rw [List.length_cons] at hlen
        omega
      rw [ih source (P ++ (r :: R0).take LIMIT) ((r :: R0).drop LIMIT)
        hfilt' hlen']
      rw [List.append_assoc, List.take_append_drop]

/-- The completed timestamp index: exactly the distinct source timestamps
strictly above the sentinel, in ascending order. -/
theorem step1_eq (source : List SourceRow) :
    step1 source = (distinctTradedAt source).filter (fun t => sentinel < t) := by
  have hwm : watermark ([] : List Nat) = sentinel := rfl
  have hlen : ((distinctTradedAt source).filter
      (fun t => sentinel < t)).length < (distinctTradedAt source).length + 1 :=
    Nat.lt_succ_of_le (List.length_filter_le _ _)
  have := step1Loop_complete ((distinctTradedAt source).length + 1) source []
    ((distinctTradedAt source).filter (fun t => sentinel < t))
    (by rw [hwm]) hlen
  rw [step1, this]
  simp

/-! ### Characterization of the step2 aggregation loop -/

theorem step2Loop_eq :
    ∀ (fuel : Nat) (source : List SourceRow) (s1 : List Nat)
      (s2 : List AggRow), s1.length < fuel →
    step2Loop source s1 s2 fuel =
      some ([], s2 ++ s1.map (aggRowFor source)) := by
  intro fuel
  induction fuel with
  | zero =>
    intro source s1 s2 h
    omega
  | succ f ih =>
    intro source s1 s2 hlen
    simp only [step2Loop, move_aggregated_data]
    cases s1 with
    | nil => simp
    | cons t s0 =>
      have hL : LIMIT = 100000 := rfl
      have hne : ¬ (((t :: s0).take LIMIT).map (aggRowFor source)).length = 0 := by
        rw [List.length_map, List.length_take, List.length_cons]
        omega
      rw [if_neg hne]
      have hlen' : ((t :: s0).drop LIMIT).length < f := by
        rw [List.length_drop, List.length_cons]
        rw [List.length_cons] at hlen
        omega
      rw [ih source ((t :: s0).drop LIMIT)
        (s2 ++ ((t :: s0).take LIMIT).map (aggRowFor source)) hlen']
      rw [List.append_assoc, ← List.map_append, List.take_append_drop]

theorem step2_eq (source : List SourceRow) (s1 : List Nat)
    (s2 : List AggRow) :
    step2 source s1 s2 = ([], s2 ++ s1.map (aggRowFor source)) := by
  rw [step2, step2Loop_eq (s1.length + 1) source s1 s2 (Nat.lt_succ_self _)]
  rfl

theorem iterBatch_eq (source : List SourceRow) :
    ∀ (n : Nat) (s1 : List Nat) (s2 : List AggRow),
    iterBatch source n (s1, s2) =
      (s1.drop (n * LIMIT),
        s2 ++ (s1.take (n * LIMIT)).map (aggRowFor source)) := by
  intro n
  induction n with
  | zero =>
    intro s1 s2
    simp [iterBatch]
  | succ m ih =>
    intro s1 s2
    show iterBatch source m (batchStep source (s1, s2)) = _
    have hbs : batchStep source (s1, s2) =
        (s1.drop LIMIT, s2 ++ (s1.take LIMIT).map (aggRowFor source)) := rfl
    rw [hbs, ih]
    have h1 : (m + 1) * LIMIT = LIMIT + m * LIMIT := by ring
    rw [h1, List.drop_drop, List.take_add, List.map_append,
      List.append_assoc]

/-! ### Unfolding the orchestrator -/

theorem check_existence_error (e : DbError) :
    check_existence (Except.error e) = false := rfl

theorem check_existence_ok (n : Nat) :
    check_existence (Except.ok n) = (n != 0) := rfl

theorem aggregate_target_none {s : DbState} (h : s.target = none) :
    aggregate s = aggregateBody s := by
  rw [aggregate, aggregateWithTargetCheck, h]
  rfl

theorem aggregate_target_some {s : DbState} {T : List AggRow}
    (h : s.target = some T) : aggregate s = s := by
  rw [aggregate, aggregateWithTargetCheck, h]
  rfl

theorem aggregateBody_of_exists {s : DbState} {idx : List Nat}
    {rows : List AggRow} (h1 : s.step1 = some idx) (h2 : s.step2 = some rows) :
    aggregateBody s =
      { s with
        step1 := none
        step2 := none
        target := some (rows ++ idx.map (aggRowFor s.source)) } := by
  rw [aggregateBody, h1, h2]
  simp [check_existence_ok, tableCount, step2_eq]

theorem aggregate_fresh (source : List SourceRow) :
    aggregate (freshState source) =
      { source := source
        step1 := none
        tmp1 := none
        step2 := none
        target := some ((step1 source).map (aggRowFor source)) } := by
  rw [aggregate_target_none rfl]
  simp [aggregateBody, freshState, check_existence_ok, tableCount, step2_eq,
    clear_step2_table]

theorem runTarget_eq (source : List SourceRow) :
    runTarget source = (step1 source).map (aggRowFor source) := by
  rw [runTarget, aggregate_fresh]
  rfl

/-! ### Further helper lemmas -/

theorem length_filter_lt {l : List Nat} {p : Nat → Bool} {x : Nat}
    (hx : x ∈ l) (hpx : p x = false) : (l.filter p).length < l.length := by
  induction l with
  | nil => cases hx
  | cons a l' ih =>
    rcases List.mem_cons.mp hx with h | h
    · subst h
      rw [List.filter_cons_of_neg (by simp [hpx])]
      have := List.length_filter_le p l'
      simp only [List.length_cons]
      omega
    · by_cases hpa : p a = true
      · rw [List.filter_cons_of_pos hpa]
        simp only [List.length_cons]
        exact Nat.succ_lt_succ (ih h)
      · rw [List.filter_cons_of_neg (by simpa using hpa)]
        have := ih h
        simp only [List.length_cons]
        omega

theorem nodup_filter_eq_single {l : List Nat} {t : Nat} (hn : l.Nodup)
    (ht : t ∈ l) : l.filter (fun u => u = t) = [t] := by
  induction l with
  | nil => cases ht
  | cons a l' ih =>
    rw [List.nodup_cons] at hn
    rcases List.mem_cons.mp ht with h | h
    · rw [List.filter_cons_of_pos (by simp [h])]
      have hnil : l'.filter (fun u => u = t) = [] := by
        rw [List.filter_eq_nil_iff]
        intro x hx
        simp only [decide_eq_true_eq]
        intro hEq
        exact hn.1 ((hEq.trans h) ▸ hx)
      rw [hnil, h]
    · have hne : ¬ (a = t) := fun hEq => hn.1 (hEq ▸ h)
      rw [List.filter_cons_of_neg (by simpa using hne)]
      exact ih hn.2 h

/-! ### Concrete inputs used by witnesses and counterexamples -/

/-- The example source of the specification: the three rows of
trades_bffx. 1609459200000 is 2021-01-01T00:00:00.000 UTC,
1609459200500 is 2021-01-01T00:00:00.500 UTC. -/
def exBffx : List SourceRow :=
  [ { traded_at := 1609459200000, amount := 1, price := 100 },
    { traded_at := 1609459200000, amount := 2, price := 102 },
    { traded_at := 1609459200500, amount := 5, price := 50 } ]

/-- A source whose single timestamp, 1970-01-01T00:00:01.000 (a valid
TIMESTAMP(3) value), does not exceed the sentinel. -/
def oldSourceA : List SourceRow :=
  [ { traded_at := 1000, amount := 1, price := 1 } ]

/-- A second pre-sentinel source, timestamp 1970-01-01T00:00:02.000. -/
def oldSourceB : List SourceRow :=
  [ { traded_at := 2000, amount := 1, price := 1 } ]

/-- A third pre-sentinel source, timestamp 1970-01-01T00:00:03.000. -/
def oldSourceC : List SourceRow :=
  [ { traded_at := 3000, amount := 3, price := 7 } ]

/-- A leftover staging row from a hypothetical earlier, interrupted run. -/
def leftoverRow : AggRow := { traded_at := 10, amount := 9, price := 9 }

/-- A state where the target is absent, the index exists and is empty, and
a leftover step2 staging table holding one row exists. -/
def leftoverState : DbState :=
  { source := []
    step1 := some []
    tmp1 := none
    step2 := some [leftoverRow]
    target := none }

/-- A state whose target has already been published. -/
def doneState : DbState :=
  { source := []
    step1 := none
    tmp1 := none
    step2 := none
    target := some [] }

/-! ### Claim theorems -/

/-- Claim C1: across any number of committed batches, every index entry is
aggregated into the staging table exactly once: the staged keys stay
duplicate free, every original index entry is either still in the index or
staged (never both), and every consumed entry appears exactly once among
the staged aggregates. -/
theorem C1_exactly_once (source : List SourceRow) (idx : List Nat) (n : Nat)
    (h : idx.Nodup) :
    (((iterBatch source n (idx, [])).2.map AggRow.traded_at).Nodup)
    ∧ (∀ t, t ∈ idx ↔ t ∈ (iterBatch source n (idx, [])).1
        ∨ t ∈ (iterBatch source n (idx, [])).2.map AggRow.traded_at)
    ∧ (∀ t, ¬ (t ∈ (iterBatch source n (idx, [])).1
        ∧ t ∈ (iterBatch source n (idx, [])).2.map AggRow.traded_at))
    ∧ (∀ t, t ∈ idx → t ∉ (iterBatch source n (idx, [])).1 →
        ((iterBatch source n (idx, [])).2.map AggRow.traded_at).count t = 1) := by
  rw [iterBatch_eq]
  have hkeys : (([] ++ (idx.take (n * LIMIT)).map (aggRowFor source)).map
      AggRow.traded_at) = idx.take (n * LIMIT) := by
    have hcomp : AggRow.traded_at ∘ aggRowFor source = id := rfl
    simp [List.map_map, hcomp]
  simp only [hkeys]
  have hsplit : idx.take (n * LIMIT) ++ idx.drop (n * LIMIT) = idx :=
    List.take_append_drop _ _
  have hnodupA : (idx.take (n * LIMIT)).Nodup :=
    h.sublist (List.take_sublist _ _)
  have hdisj : (idx.take (n * LIMIT)).Disjoint (idx.drop (n * LIMIT)) := by
    have := hsplit ▸ h
    exact (List.nodup_append.mp this).2.2
  refine ⟨hnodupA, ?_, ?_, ?_⟩
  · intro t
    conv => lhs; rw [← hsplit]
    rw [List.mem_append]
    tauto
  · intro t ⟨h1, h2⟩
    exact hdisj h2 h1
  · intro t ht hnot
    have htake : t ∈ idx.take (n * LIMIT) := by
      rw [← hsplit] at ht
      rcases List.mem_append.mp ht with h' | h'
      · exact h'
      · exact absurd h' hnot
    exact List.count_eq_one_of_mem hnodupA htake

/-- Witness for C1 at a concrete two-entry index and one batch. -/
theorem C1_witness :
    ([10, 20] : List Nat).Nodup ∧
    (((iterBatch [] 1 ([10, 20], [])).2.map AggRow.traded_at).Nodup) :=
  ⟨by decide, (C1_exactly_once [] [10, 20] 1 (by decide)).1⟩

/-- Claim C4: resuming after n committed batches of an interrupted run
yields exactly the state (and hence the target) of an uninterrupted run. -/
theorem C4_resume_equiv (source : List SourceRow) (n : Nat) :
    aggregate (interruptedState source n) = aggregate (freshState source) := by
  rw [aggregate_fresh, aggregate_target_none rfl,
    aggregateBody_of_exists rfl rfl]
  have hIt := iterBatch_eq source n (step1 source) []
  simp only [interruptedState, hIt, List.nil_append]
  rw [← List.map_append, List.take_append_drop]

/-- Claim C5: a run against an existing target is a no-op, and the whole
pipeline is idempotent. -/
theorem C5_idempotent :
    (∀ s : DbState, s.target.isSome = true → aggregate s = s)
    ∧ (∀ s : DbState, aggregate (aggregate s) = aggregate s) := by
  constructor
  · intro s h
    obtain ⟨T, hT⟩ := Option.isSome_iff_exists.mp h
    exact aggregate_target_some hT
  · intro s
    cases hT : s.target with
    | some T => rw [aggregate_target_some hT, aggregate_target_some hT]
    | none =>
      rw [aggregate_target_none hT]
      apply aggregate_target_some
      rfl

/-- Witness for C5 at a state whose target is already published. -/
theorem C5_witness : doneState.target.isSome = true ∧
    aggregate doneState = doneState :=
  ⟨rfl, C5_idempotent.1 doneState rfl⟩

/-- Claim C10: a failed SHOW TABLES query makes check_existence answer
false, and a failed existence check on the target makes the pipeline run
the full aggregation body rather than abort. -/
theorem C10_error_handling :
    (∀ e : DbError, check_existence (Except.error e) = false)
    ∧ (∀ (e : DbError) (s : DbState),
        aggregateWithTargetCheck (Except.error e) s = aggregateBody s) := by
  constructor
  · intro e
    rfl
  · intro e s
    rfl

/-- Claim C2 (amended): for every timestamp above the sentinel that occurs
in the source, the published target of a fresh run contains exactly one
row for it, and that row aggregates the full group of source rows sharing
the timestamp — amount from Sum(amount), price from the unweighted
Avg(price) of the group (not volume-weighted) — with both aggregates
taken here in ideal (infinite-precision) arithmetic; the staging columns
holding them are DOUBLE and FLOAT, so the program stores floating-point
roundings of these ideal values, and no exactness of the stored decimals
is claimed. On the spec example trades_bffx, whose ideal aggregates are
exactly representable in the stored types, the target is exactly the two
expected rows. -/
theorem C2_aggregate_row :
    (∀ (source : List SourceRow) (t : Nat), sentinel < t →
      (∃ r ∈ source, r.traded_at = t) →
      (runTarget source).filter (fun row => row.traded_at = t) =
        [ { traded_at := t
            amount := ((source.filter (fun r => r.traded_at = t)).map
              SourceRow.amount).sum
            price := ((source.filter (fun r => r.traded_at = t)).map
              SourceRow.price).sum /
              ((source.filter (fun r => r.traded_at = t)).length : ℚ) } ])
    ∧ (step2Schema.map Column.ty) =
        [ColType.timestamp3, ColType.double, ColType.float]
    ∧ runTarget exBffx =
        [ { traded_at := 1609459200000, amount := 3, price := 101 },
          { traded_at := 1609459200500, amount := 5, price := 50 } ] := by
  refine ⟨?_, by decide, ?_⟩
  · intro source t h1 h2
    rw [runTarget_eq, step1_eq]
    have hmem : t ∈ (distinctTradedAt source).filter
        (fun u => sentinel < u) := by
      rw [List.mem_filter]
      exact ⟨mem_distinctTradedAt.mpr h2, by simpa using h1⟩
    have hnodup : ((distinctTradedAt source).filter
        (fun u => sentinel < u)).Nodup :=
      (nodup_distinctTradedAt source).filter _
    rw [List.filter_map]
    have hpf : ((fun row => decide (row.traded_at = t)) ∘ aggRowFor source) =
        fun u => decide (u = t) := rfl
    rw [hpf, nodup_filter_eq_single hnodup hmem]
    rfl
  · have hd : step1 exBffx = [1609459200000, 1609459200500] := by decide
    rw [runTarget_eq, hd]
    simp only [List.map_cons, List.map_nil]
    norm_num [aggRowFor, rowsAt, exBffx, List.filter]

/-- Witness for C2 at the second timestamp of the spec example. -/
theorem C2_witness :
    sentinel < 1609459200500 ∧
    (∃ r ∈ exBffx, r.traded_at = 1609459200500) ∧
    (runTarget exBffx).filter (fun row => row.traded_at = 1609459200500) =
      [ { traded_at := 1609459200500
          amount := ((exBffx.filter
            (fun r => r.traded_at = 1609459200500)).map
            SourceRow.amount).sum
          price := ((exBffx.filter
            (fun r => r.traded_at = 1609459200500)).map
            SourceRow.price).sum /
            ((exBffx.filter
              (fun r => r.traded_at = 1609459200500)).length : ℚ) } ] :=
  ⟨by decide, by decide,
    C2_aggregate_row.1 exBffx 1609459200500 (by decide) (by decide)⟩

/-- Counterexample to C2 as stated: oldSourceA has a row at timestamp
1000 ms (1970-01-01T00:00:01.000, a valid TIMESTAMP(3) value), yet the
published target of a full run has no row for it, because 1000 does not
exceed the sentinel watermark. -/
theorem C2_cex :
    (∃ r ∈ oldSourceA, r.traded_at = 1000) ∧
    (runTarget oldSourceA).filter (fun row => row.traded_at = 1000) = [] := by
  constructor
  · decide
  · have hd : step1 oldSourceA = [] := by decide
    rw [runTarget_eq, hd]
    rfl

/-- Claim C3 (amended): when the target is absent, a missing step2 table
is created empty before the aggregation loop, while an existing leftover
step2 table is reused untouched — it is not dropped, and its rows survive
into the published target. -/
theorem C3_step2_reuse :
    (∀ s : DbState, s.target = none → s.step2 = none →
      aggregate s = aggregate { s with step2 := some [] })
    ∧ (∀ (s : DbState) (idx : List Nat) (rows : List AggRow),
        s.target = none → s.step1 = some idx → s.step2 = some rows →
        (aggregate s).target = some (rows ++ idx.map (aggRowFor s.source))) := by
  constructor
  · intro s h1 h2
    have h1' : ({ s with step2 := some [] } : DbState).target = none := h1
    rw [aggregate_target_none h1, aggregate_target_none h1']
    rw [aggregateBody, aggregateBody]
    simp [h2, check_existence_ok, tableCount, clear_step2_table]
  · intro s idx rows h1 h2 h3
    rw [aggregate_target_none h1, aggregateBody_of_exists h2 h3]

/-- Witness for C3 at the leftover state. -/
theorem C3_witness :
    (leftoverState.target = none ∧ leftoverState.step1 = some [] ∧
      leftoverState.step2 = some [leftoverRow]) ∧
    (aggregate leftoverState).target =
      some ([leftoverRow] ++
        ([] : List Nat).map (aggRowFor leftoverState.source)) :=
  ⟨⟨rfl, rfl, rfl⟩, C3_step2_reuse.2 leftoverState [] [leftoverRow] rfl rfl rfl⟩

/-- Counterexample to C3 as stated: starting from leftoverState, whose
step2 staging table still holds a row from an interrupted run, the row is
not discarded — the claimed drop-and-recreate would publish an empty
target instead. -/
theorem C3_cex :
    (aggregate leftoverState).target = some [leftoverRow] ∧
    (aggregate leftoverState).target ≠ some ([] : List AggRow) := by
  constructor
  · rw [aggregate_target_none rfl, aggregateBody_of_exists rfl rfl]
    rfl
  · rw [aggregate_target_none rfl, aggregateBody_of_exists rfl rfl]
    decide

/-- Claim C6 (amended): the completed index is exactly the distinct source
timestamps strictly above the sentinel, ascending and duplicate free; a
timestamp is in the index iff some source row carries it and it exceeds
the sentinel. -/
theorem C6_index_contents (source : List SourceRow) :
    step1 source = (distinctTradedAt source).filter (fun t => sentinel < t)
    ∧ (step1 source).Nodup
    ∧ List.Sorted (· < ·) (step1 source)
    ∧ (∀ t, t ∈ step1 source ↔
        (∃ r ∈ source, r.traded_at = t) ∧ sentinel < t) := by
  refine ⟨step1_eq source, ?_, ?_, ?_⟩
  · rw [step1_eq]
    exact (nodup_distinctTradedAt source).filter _
  · rw [step1_eq]
    exact (sorted_distinctTradedAt source).filter _
  · intro t
    rw [step1_eq, List.mem_filter, mem_distinctTradedAt]
    simp

/-- Counterexample to C6 as stated: oldSourceB holds a row at 2000 ms
(1970-01-01T00:00:02.000, a valid TIMESTAMP(3) value), a distinct source
timestamp that the completed index misses. -/
theorem C6_cex :
    (∃ r ∈ oldSourceB, r.traded_at = 2000) ∧ 2000 ∉ step1 oldSourceB := by
  decide

/-- Claim C7 (amended): on a first run the index is empty, so the starting
watermark is the sentinel 2000-01-01T00:00:00.000; every distinct source
timestamp strictly above it is captured into the index, while older ones
are not covered. -/
theorem C7_first_run_watermark :
    watermark [] = sentinel
    ∧ (∀ (source : List SourceRow) (t : Nat),
        (∃ r ∈ source, r.traded_at = t) → sentinel < t →
        t ∈ step1 source) := by
  constructor
  · rfl
  · intro source t h1 h2
    rw [step1_eq, List.mem_filter]
    exact ⟨mem_distinctTradedAt.mpr h1, by simpa using h2⟩

/-- Witness for C7 at the spec example. -/
theorem C7_witness :
    (∃ r ∈ exBffx, r.traded_at = 1609459200500) ∧
    sentinel < 1609459200500 ∧
    1609459200500 ∈ step1 exBffx :=
  ⟨by decide, by decide,
    C7_first_run_watermark.2 exBffx 1609459200500 (by decide) (by decide)⟩

/-- Counterexample to C7 as stated: the run does not cover all history —
the source row at 3000 ms (1970-01-01T00:00:03.000) is never captured. -/
theorem C7_cex :
    (∃ r ∈ oldSourceC, r.traded_at = 3000) ∧ 3000 ∉ step1 oldSourceC := by
  decide

/-- Claim C9 (amended): the staging table (and hence the published
target) is created with columns traded_at TIMESTAMP(3) NOT NULL PRIMARY
KEY, amount DOUBLE NOT NULL, price FLOAT NOT NULL: the stored sum and
average are floating-point columns, not exact NUMERIC ones. -/
theorem C9_schema :
    (step2Schema.map Column.ty) =
      [ColType.timestamp3, ColType.double, ColType.float]
    ∧ (∀ c ∈ step2Schema,
        c.notNull = true ∧ (c.primaryKey = true ↔ c.name = "traded_at"))
    ∧ (∀ c ∈ step2Schema, c.ty ≠ ColType.numeric) := by
  decide

/-- Counterexample to C9 as stated: the schema the code creates differs
from the NUMERIC-typed shape the claim describes — the amount column is
DOUBLE and the price column is FLOAT. -/
theorem C9_cex :
    step2Schema ≠ specClaimedSchema ∧
    (step2Schema.map Column.ty) =
      [ColType.timestamp3, ColType.double, ColType.float] := by
  decide

/-- Claim C8: both loops terminate and exhaustion is the sole stopping
condition: the fuel handed to each loop suffices (each loop reaches a
zero-rows batch and returns), a step2 batch reports zero affected rows
exactly when the index is empty, a non-final step2 batch strictly shrinks
the index, a step1 batch is empty exactly when no distinct timestamp above
the watermark remains, and a non-empty step1 batch strictly decreases the
count of remaining timestamps. -/
theorem C8_termination :
    (∀ source : List SourceRow,
      (step1Loop source []
        ((distinctTradedAt source).length + 1)).isSome = true)
    ∧ (∀ (source : List SourceRow) (s1 : List Nat) (s2 : List AggRow),
        (step2Loop source s1 s2 (s1.length + 1)).isSome = true)
    ∧ (∀ (source : List SourceRow) (s1 : List Nat) (s2 : List AggRow),
        ((move_aggregated_data source s1 s2).2.2 = 0 ↔ s1 = []))
    ∧ (∀ (source : List SourceRow) (s1 : List Nat) (s2 : List AggRow),
        s1 ≠ [] → ((move_aggregated_data source s1 s2).1).length < s1.length)
    ∧ (∀ (source : List SourceRow) (index : List Nat),
        (insert_all_traded_at source index = [] ↔
          (distinctTradedAt source).filter
            (fun t => watermark index < t) = []))
    ∧ (∀ (source : List SourceRow) (index : List Nat),
        insert_all_traded_at source index ≠ [] →
        ((distinctTradedAt source).filter
          (fun t => watermark
            (index ++ insert_all_traded_at source index) < t)).length <
        ((distinctTradedAt source).filter
          (fun t => watermark index < t)).length) := by
  have hL : LIMIT = 100000 := rfl
  refine ⟨?_, ?_, ?_, ?_, ?_, ?_⟩
  · intro source
    rw [step1Loop_complete ((distinctTradedAt source).length + 1) source []
      ((distinctTradedAt source).filter (fun t => sentinel < t)) rfl
      (Nat.lt_succ_of_le (List.length_filter_le _ _))]
    rfl
  · intro source s1 s2
    rw [step2Loop_eq (s1.length + 1) source s1 s2 (Nat.lt_succ_self _)]
    rfl
  · intro source s1 s2
    simp only [move_aggregated_data]
    simp only [List.length_map, List.length_take]
    rw [← List.length_eq_zero, hL]
    omega
  · intro source s1 s2 hne
    have hpos : 0 < s1.length := List.length_pos.mpr hne
    simp only [move_aggregated_data]
    simp only [List.length_drop]
    omega
  · intro source index
    rw [insert_all_traded_at, List.take_eq_nil_iff]
    simp [hL]
  · intro source index hne
    obtain ⟨b, hb⟩ : ∃ b,
        maxTraded (insert_all_traded_at source index) = some b := by
      cases hmb : maxTraded (insert_all_traded_at source index) with
      | none =>
        rw [maxTraded_eq_none] at hmb
        exact absurd hmb hne
      | some b => exact ⟨b, rfl⟩
    have hbR : b ∈ (distinctTradedAt source).filter
        (fun t => watermark index < t) :=
      List.take_subset _ _ (maxTraded_mem hb)
    have hwb : watermark index < b := by
      have := List.of_mem_filter hbR
      simpa using this
    have hPle : ∀ x ∈ index, x ≤ b := by
      intro x hx
      cases hmp : maxTraded index with
      | none =>
        rw [maxTraded_eq_none] at hmp
        subst hmp
        cases hx
      | some mp =>
        have hxmp : x ≤ mp := le_maxTraded_of_mem hmp hx
        have hwmp : watermark index = mp := by
          rw [watermark, hmp]
          rfl
        omega
    have hw' : watermark (index ++ insert_all_traded_at source index) = b := by
      rw [watermark, maxTraded_append_of_le hb hPle]
      rfl
    rw [hw']
    have h1 : (distinctTradedAt source).filter (fun t => b < t) =
        ((distinctTradedAt source).filter
          (fun t => watermark index < t)).filter (fun t => b < t) :=
      (filter_gt_filter (le_of_lt hwb)).symm
    rw [h1]
    exact length_filter_lt hbR (by simp)

/-- Witness for C8 at a one-entry index and at the spec example source. -/
theorem C8_witness :
    (([5] : List Nat) ≠ [] ∧
      ((move_aggregated_data [] [5] []).1).length < ([5] : List Nat).length) ∧
    (insert_all_traded_at exBffx [] ≠ [] ∧
      ((distinctTradedAt exBffx).filter
        (fun t => watermark ([] ++ insert_all_traded_at exBffx []) < t)).length <
      ((distinctTradedAt exBffx).filter
        (fun t => watermark [] < t)).length) :=
  ⟨⟨by decide, C8_termination.2.2.2.1 [] [5] [] (by decide)⟩,
   ⟨by decide, C8_termination.2.2.2.2.2 exBffx [] (by decide)⟩⟩

end PikminAggregator
